import Mathlib

/-!
Verification of the Honos-Sync reconciliation engine (src/main.ts, V2 code path,
together with MetadataManager, NetworkClient V2 and utils).

The sync pass `performSync` is embedded as a pure function over an explicit
state (local vault contents, per-path sync metadata, the single-flight guard and
the status indicator) and an environment supplying the network responses
(listing, per-file download and upload) plus the external digest collaborator
and the clock.  Record<string, T> / Map objects are modelled as association
lists with the usual lookup / insert / erase operations; UI notices are recorded
as effects only where the code's conflict branch emits them.
-/

set_option autoImplicit false

namespace HonosSync

/-- FileMetadata, as declared in MetadataManager: the per-path sync state
(content digest, last observed remote revision, parent revision, timestamp). -/
structure FileMetadata where
  path : String
  hash : String
  revision : Nat
  parentRevision : Nat
  updatedAt : Nat
deriving DecidableEq, Repr

/-- A remote file record as listed by the server (types.ts, V2 RemoteFile).
The optional `isDeleted` flag is modelled as a Bool (absent means false).
Fields the sync pass never reads (isConflict, updatedAt, parentRevision) are
omitted. -/
structure RemoteFile where
  path : String
  hash : String
  size : Nat
  revision : Nat
  isDeleted : Bool
deriving DecidableEq, Repr

/-! ### Association-list maps

`Record<string, T>` objects and JS `Map`s are modelled as association lists.
`insertA` overwrites any previous binding for the key, matching both record
assignment and `Map.set`. -/

def lookupA {α : Type} : List (String × α) → String → Option α
  | [], _ => none
  | e :: rest, k => if e.1 = k then some e.2 else lookupA rest k

def eraseA {α : Type} : List (String × α) → String → List (String × α)
  | [], _ => []
  | e :: rest, k => if e.1 = k then eraseA rest k else e :: eraseA rest k

def insertA {α : Type} (m : List (String × α)) (k : String) (v : α) :
    List (String × α) :=
  (k, v) :: eraseA m k

@[simp] theorem lookupA_nil {α : Type} (k : String) :
    lookupA ([] : List (String × α)) k = none := rfl

@[simp] theorem lookupA_cons {α : Type} (e : String × α)
    (rest : List (String × α)) (k : String) :
    lookupA (e :: rest) k = if e.1 = k then some e.2 else lookupA rest k := rfl

theorem lookupA_eraseA {α : Type} (m : List (String × α)) (k k' : String) :
    lookupA (eraseA m k) k' = if k' = k then none else lookupA m k' := by
  induction m with
  | nil => simp [eraseA]
  | cons e rest ih =>
    by_cases h1 : e.1 = k
    · rw [show eraseA (e :: rest) k = eraseA rest k from by simp [eraseA, h1]]
      rw [ih]
      by_cases h2 : k' = k
      · simp [h2]
      · have h3 : ¬ e.1 = k' := fun hk => h2 (h1.symm.trans hk).symm
        simp [h2, h3]
    · rw [show eraseA (e :: rest) k = e :: eraseA rest k from by simp [eraseA, h1]]
      by_cases h2 : e.1 = k'
      · have h3 : ¬ k' = k := fun hk => h1 (h2.trans hk)
        simp [h2, h3]
      · simp [h2, ih]

theorem lookupA_insertA {α : Type} (m : List (String × α)) (k k' : String)
    (v : α) :
    lookupA (insertA m k v) k' = if k' = k then some v else lookupA m k' := by
  by_cases h : k' = k
  · simp [insertA, h]
  · have h' : ¬ k = k' := fun hk => h hk.symm
    simp [insertA, h, h', lookupA_eraseA]

/-! ### Network responses and the environment

NetworkClient (V2) catches every transport error and turns it into a response
with `success = false`, so per-file network calls never throw; the environment
below therefore supplies total response functions.  The external digest
collaborator (`calculateHash`, SHA-256 via crypto.subtle) and the clock
(`Date.now()`) are environment parameters as well. -/

/-- FileListResponse (V2): `success` plus the record list (`files || []`). -/
structure FileListResponse where
  success : Bool
  files : List RemoteFile
deriving DecidableEq, Repr

/-- The `file` object of a V2 download response; only its `content` field is
read by the sync pass, and that field may be undefined. -/
structure DownloadedFile where
  content : Option String
deriving DecidableEq, Repr

/-- FileDownloadResponse (V2): `success` plus an optional `file` object. -/
structure FileDownloadResponse where
  success : Bool
  file : Option DownloadedFile
deriving DecidableEq, Repr

/-- FileUploadResponse (V2): optional `revision` on success, optional conflict
data on a 409 (only its presence is read, so it is a Bool here). -/
structure FileUploadResponse where
  success : Bool
  revision : Option Nat
  conflict : Bool
deriving DecidableEq, Repr

/-- The environment of one sync pass: the listing response, the per-call
download and upload responses, the digest function and the clock. -/
structure Env where
  listRes : FileListResponse
  download : String → Nat → FileDownloadResponse
  upload : String → List String → String → Nat → Nat → FileUploadResponse
  hashFn : String → String
  now : Nat

/-- JS truthiness of `res.success && res.revision` in processUpload: the
accepted revision when the response is a success carrying a non-zero revision,
and none otherwise (undefined and 0 are both falsy). -/
def uploadAccepted (res : FileUploadResponse) : Option Nat :=
  if res.success then
    match res.revision with
    | some r => if r = 0 then none else some r
    | none => none
  else none

/-! ### State and effects -/

/-- The status-bar state set through updateStatusBar. -/
inductive SyncStatus
  | idle
  | syncing
  | error
deriving DecidableEq, Repr

/-- The mutable state the sync pass touches: the single-flight guard
`isSyncing`, whether a token is configured, the MetadataManager map, the vault
contents (path to text content) and the status indicator. -/
structure SyncState where
  isSyncing : Bool
  hasToken : Bool
  meta : List (String × FileMetadata)
  files : List (String × String)
  status : SyncStatus
deriving DecidableEq, Repr

/-- Externally visible actions of a pass.  Remote calls record the path and,
for uploads, the supplied parentRevision and whether the server accepted the
write.  `remoteDelete` mirrors NetworkClient.deleteFile, which the V2 sync pass
never invokes, so no constructor application of it appears in the semantics.
UI notices are recorded only for the upload-conflict branch, the one place a
claim refers to them. -/
inductive Effect
  | notice (msg : String)
  | remoteDownloadCall (path : String) (revision : Nat)
  | remoteUpload (path : String) (parentRevision : Nat) (accepted : Bool)
  | remoteDelete (path : String) (parentRevision : Nat)
deriving DecidableEq, Repr

/-! ### MetadataManager and utils -/

/-- MetadataManager.updateMetadata: merge the given fields over the current
entry (or a zeroed default) and stamp `updatedAt` with the current time.  Every
call site in main.ts supplies all fields, so the merge amounts to replacing the
entry with `meta`, with `updatedAt` overridden. -/
def updateMetadata (m : List (String × FileMetadata)) (path : String)
    (meta : FileMetadata) (now : Nat) : List (String × FileMetadata) :=
  insertA m path { meta with updatedAt := now }

/-- MetadataManager.deleteMetadata: remove the entry for the path. -/
def deleteMetadata (m : List (String × FileMetadata)) (path : String) :
    List (String × FileMetadata) :=
  eraseA m path

/-- utils.splitIntoChunks: a single chunk. -/
def splitIntoChunks (content : String) : List String :=
  [content]

/-! ### getConflictPath

The source computes `ext = path.split('.').pop()` and
`base = path.substring(0, path.lastIndexOf('.'))`.  The last element of a JS
split on `'.'` is exactly the suffix of the string after its last `'.'` (the
whole string when there is none), and `substring(0, lastIndexOf('.'))` is the
prefix before the last `'.'` (the empty string when there is none, since a
negative end index clamps to 0).  Both are embedded below via the character
list of the path. -/

/-- `path.split('.').pop()`: the suffix after the last dot, or the whole path
when it contains no dot. -/
def jsSplitDotPop (path : String) : String :=
  String.mk (path.toList.reverse.takeWhile (fun c => c ≠ '.')).reverse

/-- `path.substring(0, path.lastIndexOf('.'))`: the prefix before the last dot,
or the empty string when the path contains no dot (lastIndexOf yields -1 and
substring clamps it to 0). -/
def jsBaseBeforeLastDot (path : String) : String :=
  String.mk ((path.toList.reverse.dropWhile (fun c => c ≠ '.')).drop 1).reverse

/-- getConflictPath from main.ts, with `Date.now()` passed in as `now`. -/
def getConflictPath (now : Nat) (path : String) : String :=
  jsBaseBeforeLastDot path ++ ".conflict-" ++ Nat.repr now ++ "." ++
    jsSplitDotPop path

/-! ### The sync pass -/

/-- processDownload: download the record's content at its revision; on a
successful response carrying content, write it to the local file (modify when
the file existed in the snapshot, create otherwise — either way the path maps
to the downloaded content) and store SyncMeta with the remote digest and
revision.  On any other response, do nothing.  `localFile` is the snapshot
entry passed in by the pass; the code only uses it to pick modify versus
create, which coincide on the map model. -/
def processDownload (env : Env) (st : SyncState) (remote : RemoteFile)
    (localFile : Option String) : SyncState × List Effect :=
  let res := env.download remote.path remote.revision
  let call := Effect.remoteDownloadCall remote.path remote.revision
  if res.success then
    match res.file with
    | some f =>
      match f.content with
      | some c =>
        ({ st with
            files := insertA st.files remote.path c
            meta := updateMetadata st.meta remote.path
              { path := remote.path, hash := remote.hash,
                revision := remote.revision, parentRevision := remote.revision,
                updatedAt := env.now } env.now },
         [call])
      | none => (st, [call])
    | none => (st, [call])
  else (st, [call])

/-- processUpload: upload the content in chunks with the given parentRevision.
On a success carrying a non-zero revision, store SyncMeta at that revision.
On a conflict outcome, rename the local file to the conflict path, delete the
SyncMeta entry for the original path and notify the user.  On any other
response, do nothing. -/
def processUpload (env : Env) (st : SyncState) (path content hash : String)
    (parentRevision : Nat) : SyncState × List Effect :=
  let chunks := splitIntoChunks content
  let res := env.upload path chunks hash content.length parentRevision
  match uploadAccepted res with
  | some r =>
    ({ st with
        meta := updateMetadata st.meta path
          { path := path, hash := hash, revision := r, parentRevision := r,
            updatedAt := env.now } env.now },
     [Effect.remoteUpload path parentRevision true])
  | none =>
    if res.conflict then
      let conflictPath := getConflictPath env.now path
      let files := match lookupA st.files path with
        | some c => insertA (eraseA st.files path) conflictPath c
        | none => st.files
      ({ st with files := files, meta := deleteMetadata st.meta path },
       [Effect.remoteUpload path parentRevision false,
        Effect.notice ("Conflict detected in " ++ path),
        Effect.notice ("Moved local changes to " ++ conflictPath)])
    else (st, [Effect.remoteUpload path parentRevision false])

/-- One iteration of the download loop of performSync: pull the record when
there is no SyncMeta entry or the remote revision is strictly newer. -/
def downloadStep (env : Env) (localMap : List (String × String))
    (acc : SyncState × List Effect) (remote : RemoteFile) :
    SyncState × List Effect :=
  let localMeta := lookupA acc.1.meta remote.path
  let localFile := lookupA localMap remote.path
  let shouldPull := match localMeta with
    | none => true
    | some m => decide (remote.revision > m.revision)
  if shouldPull then
    let r := processDownload env acc.1 remote localFile
    (r.1, acc.2 ++ r.2)
  else acc

/-- One iteration of the upload loop of performSync, for one snapshot entry:
read the current content, and when its digest differs from the stored one (or
there is no entry), either skip — when a remote record exists, a SyncMeta entry
exists and the remote revision is strictly newer — or upload with
`parentRevision = localMeta?.revision || 0`.  A failed read is caught by the
per-file handler and skips the file. -/
def uploadStep (env : Env) (remoteMap : List (String × RemoteFile))
    (acc : SyncState × List Effect) (entry : String × String) :
    SyncState × List Effect :=
  let path := entry.1
  match lookupA acc.1.files path with
  | none => acc
  | some content =>
    let currentHash := env.hashFn content
    let localMeta := lookupA acc.1.meta path
    let changed := match localMeta with
      | none => true
      | some m => decide (m.hash ≠ currentHash)
    if changed then
      let remote := lookupA remoteMap path
      let skip := match remote, localMeta with
        | some r, some m => decide (r.revision > m.revision)
        | _, _ => false
      if skip then acc
      else
        let parentRev := match localMeta with
          | some m => m.revision
          | none => 0
        let r := processUpload env acc.1 path content currentHash parentRev
        (r.1, acc.2 ++ r.2)
    else acc

/-- `new Map(remoteFiles.map(f => [f.path, f]))`: later records override
earlier ones with the same path. -/
def remoteMapOf (fs : List RemoteFile) : List (String × RemoteFile) :=
  fs.foldl (fun m f => insertA m f.path f) []

/-- The result of performSync: the final state, whether the pass was aborted by
a listing failure (the thrown Error caught by the catch block), and the
chronological effect log. -/
structure PassResult where
  state : SyncState
  aborted : Bool
  effects : List Effect
deriving DecidableEq, Repr

/-- The body of the try block of performSync after a successful listing:
snapshot the remote map and the local file list, run the download loop over
the remote records, then the upload loop over the local snapshot, and reset
the guard in the finally block (the status bar does not read "Error" on this
path, so it goes back to Idle unless a step set it). -/
def syncBody (env : Env) (st1 : SyncState) : PassResult :=
  let remoteFiles := env.listRes.files
  let remoteMap := remoteMapOf remoteFiles
  let localEntries := st1.files
  let afterDownloads :=
    remoteFiles.foldl (downloadStep env localEntries) (st1, [])
  let afterUploads :=
    localEntries.foldl (uploadStep env remoteMap) (afterDownloads.1, [])
  { state :=
      { afterUploads.1 with
          isSyncing := false,
          status := if afterUploads.1.status = SyncStatus.error then
              SyncStatus.error
            else SyncStatus.idle },
    aborted := false,
    effects := afterDownloads.2 ++ afterUploads.2 }

/-- performSync (main.ts V2): refuse without a token; refuse while a pass is in
flight; otherwise set the guard, and either abort through the catch block when
the listing fails (the guard is still reset in finally) or run the two loops
of syncBody.  The `silent` flag only controls UI notices, which are not
modelled outside the conflict branch. -/
def performSync (env : Env) (st : SyncState) (silent : Bool) : PassResult :=
  if st.hasToken = false then
    { state := st, aborted := false, effects := [] }
  else if st.isSyncing then
    { state := st, aborted := false, effects := [] }
  else
    let st1 := { st with isSyncing := true, status := SyncStatus.syncing }
    if env.listRes.success = false then
      { state := { st1 with isSyncing := false, status := SyncStatus.error },
        aborted := true, effects := [] }
    else
      syncBody env st1

/-! ### Helper lemmas -/

theorem takeWhile_append_stop {α : Type} (p : α → Bool) (l1 l2 : List α)
    (x : α) (h1 : ∀ a ∈ l1, p a = true) (h2 : p x = false) :
    (l1 ++ x :: l2).takeWhile p = l1 := by
  induction l1 with
  | nil => simp [List.takeWhile, h2]
  | cons a t ih =>
    have ha : p a = true := h1 a (by simp)
    have ht : ∀ b ∈ t, p b = true := fun b hb => h1 b (by simp [hb])
    simp [List.takeWhile, ha, ih ht]

theorem dropWhile_append_stop {α : Type} (p : α → Bool) (l1 l2 : List α)
    (x : α) (h1 : ∀ a ∈ l1, p a = true) (h2 : p x = false) :
    (l1 ++ x :: l2).dropWhile p = x :: l2 := by
  induction l1 with
  | nil => simp [List.dropWhile, h2]
  | cons a t ih =>
    have ha : p a = true := h1 a (by simp)
    have ht : ∀ b ∈ t, p b = true := fun b hb => h1 b (by simp [hb])
    simp [List.dropWhile, ha, ih ht]

theorem toList_append_dot (b e : String) :
    (b ++ "." ++ e).toList = b.toList ++ '.' :: e.toList := by
  show (b ++ "." ++ e).data = b.data ++ '.' :: e.data
  rw [String.data_append, String.data_append]
  simp [show (".").data = ['.'] from rfl]

theorem jsSplitDotPop_append (b e : String) (he : '.' ∉ e.toList) :
    jsSplitDotPop (b ++ "." ++ e) = e := by
  unfold jsSplitDotPop
  rw [toList_append_dot]
  rw [show (b.toList ++ '.' :: e.toList).reverse
        = e.toList.reverse ++ '.' :: b.toList.reverse from by simp]
  rw [takeWhile_append_stop _ _ _ _
        (fun a ha => by
          simp only [decide_eq_true_eq]
          exact fun hc => he (by simpa [hc] using List.mem_reverse.mp ha))
        (by simp)]
  rw [List.reverse_reverse]
  rfl

theorem jsSplitDotPop_nodot (p : String) (hp : '.' ∉ p.toList) :
    jsSplitDotPop p = p := by
  unfold jsSplitDotPop
  rw [List.takeWhile_eq_self_iff.mpr
        (fun a ha => by
          simp only [decide_eq_true_eq]
          exact fun hc => hp (by simpa [hc] using List.mem_reverse.mp ha))]
  rw [List.reverse_reverse]
  rfl

theorem jsBaseBeforeLastDot_append (b e : String) (he : '.' ∉ e.toList) :
    jsBaseBeforeLastDot (b ++ "." ++ e) = b := by
  unfold jsBaseBeforeLastDot
  rw [toList_append_dot]
  rw [show (b.toList ++ '.' :: e.toList).reverse
        = e.toList.reverse ++ '.' :: b.toList.reverse from by simp]
  rw [dropWhile_append_stop _ _ _ _
        (fun a ha => by
          simp only [decide_eq_true_eq]
          exact fun hc => he (by simpa [hc] using List.mem_reverse.mp ha))
        (by simp)]
  simp only [List.drop_one, List.tail_cons, List.reverse_reverse]
  rfl

theorem jsBaseBeforeLastDot_nodot (p : String) (hp : '.' ∉ p.toList) :
    jsBaseBeforeLastDot p = "" := by
  unfold jsBaseBeforeLastDot
  rw [List.dropWhile_eq_nil_iff.mpr
        (fun a ha => by
          simp only [decide_eq_true_eq]
          exact fun hc => hp (by simpa [hc] using List.mem_reverse.mp ha))]
  rfl

/-! ### C10 -/

/-- C10: on a path with at least one dot — written `b ++ "." ++ e` with a
dot-free `e`, so `b` is the prefix before the last dot and `e` the substring
after it — getConflictPath yields that prefix, then ".conflict-", the
timestamp, a dot, and the extension; on a dot-free path the base is empty and
the whole original path becomes the extension. -/
theorem c10_conflict_path_shape (ts : Nat) :
    (∀ b e : String, '.' ∉ e.toList →
        getConflictPath ts (b ++ "." ++ e)
          = b ++ ".conflict-" ++ Nat.repr ts ++ "." ++ e)
  ∧ (∀ p : String, '.' ∉ p.toList →
        getConflictPath ts p = ".conflict-" ++ Nat.repr ts ++ "." ++ p) := by
  constructor
  · intro b e he
    unfold getConflictPath
    rw [jsSplitDotPop_append b e he, jsBaseBeforeLastDot_append b e he]
  · intro p hp
    unfold getConflictPath
    rw [jsSplitDotPop_nodot p hp, jsBaseBeforeLastDot_nodot p hp]
    simp

/-- Witness for C10 at "note.md" (= "note" ++ "." ++ "md") and "README". -/
theorem c10_conflict_path_shape_witness :
    getConflictPath 111 ("note" ++ "." ++ "md")
        = "note" ++ ".conflict-" ++ Nat.repr 111 ++ "." ++ "md"
    ∧ getConflictPath 111 "README"
        = ".conflict-" ++ Nat.repr 111 ++ "." ++ "README" :=
  ⟨(c10_conflict_path_shape 111).1 "note" "md" (by decide),
   (c10_conflict_path_shape 111).2 "README" (by decide)⟩

/-! ### Per-call no-op lemmas -/

/-- A response that is neither an accepted write nor a conflict leaves the
state untouched; only the rejected call is logged. -/
theorem processUpload_rejected_noop (env : Env) (st : SyncState)
    (path content hash : String) (pr : Nat)
    (hacc : uploadAccepted
        (env.upload path (splitIntoChunks content) hash content.length pr)
      = none)
    (hconf : (env.upload path (splitIntoChunks content) hash
        content.length pr).conflict = false) :
    processUpload env st path content hash pr
      = (st, [Effect.remoteUpload path pr false]) := by
  unfold processUpload
  simp [hacc, hconf]

/-- A download response with `success = false` leaves the state untouched. -/
theorem processDownload_fail_noop (env : Env) (st : SyncState)
    (remote : RemoteFile) (lf : Option String)
    (h : (env.download remote.path remote.revision).success = false) :
    processDownload env st remote lf
      = (st, [Effect.remoteDownloadCall remote.path remote.revision]) := by
  unfold processDownload
  simp [h]

theorem uploadAccepted_eq_none (res : FileUploadResponse)
    (h : res.success = false ∨ res.revision = none ∨ res.revision = some 0) :
    uploadAccepted res = none := by
  rcases h with h | h | h <;> simp [uploadAccepted, h]

/-! ### C4 -/

/-- C4: a reconcile request while a pass is active is rejected with the state
unchanged, and whenever no pass is active the single-flight guard is back to
not-syncing after performSync returns, on every exit path (early token return,
listing-failure abort through catch/finally, or normal completion). -/
theorem c4_single_flight_guard (env : Env) (st : SyncState) (silent : Bool) :
    (st.isSyncing = true →
        performSync env st silent
          = { state := st, aborted := false, effects := [] })
  ∧ (st.isSyncing = false →
        (performSync env st silent).state.isSyncing = false) := by
  constructor
  · intro h
    unfold performSync
    by_cases htok : st.hasToken = false
    · simp [htok]
    · simp [htok, h]
  · intro h
    unfold performSync
    by_cases htok : st.hasToken = false
    · simp [htok, h]
    · by_cases hlist : env.listRes.success = false
      · simp [htok, h, hlist]
      · simp [htok, h, hlist, syncBody]

/-- Environment for the C4 witness: empty listing, every call fails. -/
def envW4 : Env :=
  { listRes := { success := true, files := [] },
    download := fun _ _ => { success := false, file := none },
    upload := fun _ _ _ _ _ =>
      { success := false, revision := none, conflict := false },
    hashFn := fun s => s, now := 0 }

/-- A state with a pass already in flight. -/
def stW4busy : SyncState :=
  { isSyncing := true, hasToken := true, meta := [], files := [],
    status := SyncStatus.syncing }

/-- An idle state. -/
def stW4idle : SyncState :=
  { isSyncing := false, hasToken := true, meta := [], files := [],
    status := SyncStatus.idle }

/-- Witness for C4: a busy state is left unchanged, and an idle state ends
with the guard cleared. -/
theorem c4_single_flight_guard_witness :
    performSync envW4 stW4busy true
        = { state := stW4busy, aborted := false, effects := [] }
    ∧ (performSync envW4 stW4idle true).state.isSyncing = false :=
  ⟨(c4_single_flight_guard envW4 stW4busy true).1 rfl,
   (c4_single_flight_guard envW4 stW4idle true).2 rfl⟩

/-! ### C7 -/

/-- C7: a listing failure aborts the pass before any per-file action (no
effects, metadata and files untouched), while with a successful listing the
pass never aborts; a failed per-file download or upload leaves the state
unchanged and the loop structure carries on with the remaining paths. -/
theorem c7_listing_aborts_per_file_failures_skip (env : Env) (st : SyncState)
    (silent : Bool) :
    (env.listRes.success = false → st.hasToken = true → st.isSyncing = false →
        (performSync env st silent).aborted = true
        ∧ (performSync env st silent).state.meta = st.meta
        ∧ (performSync env st silent).state.files = st.files
        ∧ (performSync env st silent).effects = [])
  ∧ (env.listRes.success = true → (performSync env st silent).aborted = false)
  ∧ (∀ s : SyncState, ∀ remote : RemoteFile, ∀ lf : Option String,
        (env.download remote.path remote.revision).success = false →
        processDownload env s remote lf
          = (s, [Effect.remoteDownloadCall remote.path remote.revision]))
  ∧ (∀ s : SyncState, ∀ path content hash : String, ∀ pr : Nat,
        (env.upload path (splitIntoChunks content) hash
            content.length pr).success = false →
        (env.upload path (splitIntoChunks content) hash
            content.length pr).conflict = false →
        processUpload env s path content hash pr
          = (s, [Effect.remoteUpload path pr false])) := by
  refine ⟨?_, ?_, ?_, ?_⟩
  · intro hlist htok hsync
    unfold performSync
    simp [htok, hsync, hlist]
  · intro hlist
    unfold performSync
    by_cases htok : st.hasToken = false
    · simp [htok]
    · by_cases hsync : st.isSyncing
      · simp [htok, hsync]
      · simp [htok, hsync, hlist, syncBody]
  · intro s remote lf h
    exact processDownload_fail_noop env s remote lf h
  · intro s path content hash pr hsucc hconf
    exact processUpload_rejected_noop env s path content hash pr
      (uploadAccepted_eq_none _ (Or.inl hsucc)) hconf

/-- Environment for the C7 witness where the listing fails. -/
def envW7bad : Env :=
  { listRes := { success := false, files := [] },
    download := fun _ _ => { success := false, file := none },
    upload := fun _ _ _ _ _ =>
      { success := false, revision := none, conflict := false },
    hashFn := fun s => s, now := 0 }

/-- Environment for the C7 witness where the listing succeeds but the per-file
upload fails. -/
def envW7ok : Env :=
  { listRes := { success := true, files := [] },
    download := fun _ _ => { success := false, file := none },
    upload := fun _ _ _ _ _ =>
      { success := false, revision := none, conflict := false },
    hashFn := fun s => s, now := 0 }

/-- State for the C7 witness: one never-synced local file. -/
def stW7 : SyncState :=
  { isSyncing := false, hasToken := true,
    meta := [], files := [("a.md", "x")],
    status := SyncStatus.idle }

/-- Witness for C7: a failed listing aborts with nothing done, and with a
successful listing a failing per-file upload does not abort the pass. -/
theorem c7_listing_aborts_per_file_failures_skip_witness :
    ((performSync envW7bad stW7 true).aborted = true
      ∧ (performSync envW7bad stW7 true).effects = [])
  ∧ (performSync envW7ok stW7 true).aborted = false :=
  ⟨⟨((c7_listing_aborts_per_file_failures_skip envW7bad stW7 true).1
        rfl rfl rfl).1,
    ((c7_listing_aborts_per_file_failures_skip envW7bad stW7 true).1
        rfl rfl rfl).2.2.2⟩,
   (c7_listing_aborts_per_file_failures_skip envW7ok stW7 true).2.1 rfl⟩

/-! ### C9 -/

/-- C9: an upload response that is neither a success carrying a non-zero
revision nor a conflict outcome — a transport failure, a missing revision
field, or a zero revision — leaves both the local file map and the SyncMeta
map completely unchanged, so the path is retried on the next pass. -/
theorem c9_failed_upload_leaves_state_unchanged (env : Env) (st : SyncState)
    (path content hash : String) (pr : Nat)
    (hrej : (env.upload path (splitIntoChunks content) hash
          content.length pr).success = false
      ∨ (env.upload path (splitIntoChunks content) hash
          content.length pr).revision = none
      ∨ (env.upload path (splitIntoChunks content) hash
          content.length pr).revision = some 0)
    (hconf : (env.upload path (splitIntoChunks content) hash
        content.length pr).conflict = false) :
    processUpload env st path content hash pr
      = (st, [Effect.remoteUpload path pr false]) :=
  processUpload_rejected_noop env st path content hash pr
    (uploadAccepted_eq_none _ hrej) hconf

/-- Environment for the C9 witness: uploads succeed but report revision 0. -/
def envW9 : Env :=
  { listRes := { success := true, files := [] },
    download := fun _ _ => { success := false, file := none },
    upload := fun _ _ _ _ _ =>
      { success := true, revision := some 0, conflict := false },
    hashFn := fun s => s, now := 0 }

/-- State for the C9 witness: one synced, edited file "b.md". -/
def stW9 : SyncState :=
  { isSyncing := true, hasToken := true,
    meta := [("b.md",
      { path := "b.md", hash := "h", revision := 1, parentRevision := 1,
        updatedAt := 0 })],
    files := [("b.md", "y")], status := SyncStatus.syncing }

/-- Witness for C9: a success response carrying revision 0 changes nothing. -/
theorem c9_failed_upload_leaves_state_unchanged_witness :
    processUpload envW9 stW9 "b.md" "y" "y" 1
      = (stW9, [Effect.remoteUpload "b.md" 1 false]) :=
  c9_failed_upload_leaves_state_unchanged envW9 stW9 "b.md" "y" "y" 1
    (Or.inr (Or.inr rfl)) rfl

/-! ### C6 -/

/-- C6: on a conflict outcome, processUpload renames the local file to the
conflict path computed by getConflictPath (the content is preserved there and
the original path is gone), deletes the SyncMeta entry for the original path,
notifies the user, and logs no accepted remote write — the one call made for
the path was the rejected upload. -/
theorem c6_upload_conflict_rename (env : Env) (st : SyncState)
    (path content hash : String) (pr : Nat)
    (hsucc : (env.upload path (splitIntoChunks content) hash
        content.length pr).success = false)
    (hconf : (env.upload path (splitIntoChunks content) hash
        content.length pr).conflict = true)
    (hread : lookupA st.files path = some content) :
    (processUpload env st path content hash pr).1.files
        = insertA (eraseA st.files path) (getConflictPath env.now path) content
    ∧ (processUpload env st path content hash pr).1.meta = eraseA st.meta path
    ∧ lookupA (processUpload env st path content hash pr).1.files
        (getConflictPath env.now path) = some content
    ∧ (getConflictPath env.now path ≠ path →
        lookupA (processUpload env st path content hash pr).1.files path
          = none)
    ∧ (processUpload env st path content hash pr).2
        = [Effect.remoteUpload path pr false,
           Effect.notice ("Conflict detected in " ++ path),
           Effect.notice ("Moved local changes to "
             ++ getConflictPath env.now path)] := by
  have hacc : uploadAccepted
      (env.upload path (splitIntoChunks content) hash content.length pr)
      = none := uploadAccepted_eq_none _ (Or.inl hsucc)
  have hstep : processUpload env st path content hash pr
      = ({ st with
            files := insertA (eraseA st.files path)
              (getConflictPath env.now path) content,
            meta := deleteMetadata st.meta path },
         [Effect.remoteUpload path pr false,
          Effect.notice ("Conflict detected in " ++ path),
          Effect.notice ("Moved local changes to "
            ++ getConflictPath env.now path)]) := by
    unfold processUpload
    simp [hacc, hconf, hread]
  refine ⟨by rw [hstep], by rw [hstep]; rfl, ?_, ?_, by rw [hstep]⟩
  · rw [hstep]
    simp [lookupA_insertA]
  · intro hne
    rw [hstep]
    simp only [lookupA_insertA]
    rw [if_neg (fun hk => hne hk.symm)]
    simp [lookupA_eraseA]

/-- Environment for the C6 witness: the server answers every upload with a
conflict outcome. -/
def envW6 : Env :=
  { listRes := { success := true, files := [] },
    download := fun _ _ => { success := false, file := none },
    upload := fun _ _ _ _ _ =>
      { success := false, revision := none, conflict := true },
    hashFn := fun s => s, now := 77 }

/-- State for the C6 witness: one synced file "n.md" that was edited. -/
def stW6 : SyncState :=
  { isSyncing := true, hasToken := true,
    meta := [("n.md",
      { path := "n.md", hash := "old", revision := 2,
        parentRevision := 2, updatedAt := 0 })],
    files := [("n.md", "edited")], status := SyncStatus.syncing }

/-- Witness for C6: the conflicted upload of "n.md" moves the content to
"n.conflict-77.md", leaves nothing at "n.md", and erases its SyncMeta. -/
theorem c6_upload_conflict_rename_witness :
    lookupA (processUpload envW6 stW6 "n.md" "edited" "edited" 2).1.files
        (getConflictPath 77 "n.md") = some "edited"
    ∧ lookupA (processUpload envW6 stW6 "n.md" "edited" "edited" 2).1.files
        "n.md" = none
    ∧ (processUpload envW6 stW6 "n.md" "edited" "edited" 2).1.meta = [] := by
  have h := c6_upload_conflict_rename envW6 stW6 "n.md" "edited" "edited" 2
    rfl rfl rfl
  exact ⟨h.2.2.1, h.2.2.2.1 (by decide), by rw [h.2.1]; decide⟩

/-! ### C8: revision monotonicity -/

/-- The optimistic-concurrency assumption on the remote store: every accepted
write is assigned a revision strictly greater than the parentRevision the
writer supplied. -/
def UploadsProgress (env : Env) : Prop :=
  ∀ (path : String) (chunks : List String) (hash : String) (size pr r : Nat),
    uploadAccepted (env.upload path chunks hash size pr) = some r → pr < r

theorem processUpload_meta_frame (env : Env) (st : SyncState)
    (path content hash : String) (pr : Nat) (p : String) (hne : p ≠ path) :
    lookupA (processUpload env st path content hash pr).1.meta p
      = lookupA st.meta p := by
  unfold processUpload
  cases hacc : uploadAccepted
      (env.upload path (splitIntoChunks content) hash content.length pr) with
  | some r => simp [hacc, updateMetadata, lookupA_insertA, hne]
  | none =>
    by_cases hconf : (env.upload path (splitIntoChunks content) hash
        content.length pr).conflict
    · simp [hacc, hconf, deleteMetadata, lookupA_eraseA, hne]
    · simp [hacc, hconf]

/-- Every run of uploadStep either leaves the accumulator unchanged or calls
processUpload on the entry's path with the current content, the current digest
and `parentRevision = localMeta?.revision || 0`. -/
theorem uploadStep_cases (env : Env) (rm : List (String × RemoteFile))
    (acc : SyncState × List Effect) (entry : String × String) :
    uploadStep env rm acc entry = acc
    ∨ ∃ content pr,
        lookupA acc.1.files entry.1 = some content
        ∧ pr = (match lookupA acc.1.meta entry.1 with
            | some m => m.revision
            | none => 0)
        ∧ uploadStep env rm acc entry
            = ((processUpload env acc.1 entry.1 content
                  (env.hashFn content) pr).1,
               acc.2 ++ (processUpload env acc.1 entry.1 content
                  (env.hashFn content) pr).2) := by
  simp only [uploadStep]
  cases hread : lookupA acc.1.files entry.1 with
  | none => exact Or.inl rfl
  | some content =>
    cases hmeta : lookupA acc.1.meta entry.1 with
    | none =>
      cases hrm : lookupA rm entry.1 with
      | none =>
        exact Or.inr ⟨content, 0, rfl, rfl, by simp [hrm]⟩
      | some r =>
        exact Or.inr ⟨content, 0, rfl, rfl, by simp [hrm]⟩
    | some m =>
      by_cases hch : m.hash = env.hashFn content
      · exact Or.inl (by simp [hch])
      · cases hrm : lookupA rm entry.1 with
        | none =>
          exact Or.inr ⟨content, m.revision, rfl, rfl, by simp [hch, hrm]⟩
        | some r =>
          by_cases hsk : r.revision > m.revision
          · exact Or.inl (by simp [hch, hrm, hsk])
          · exact Or.inr ⟨content, m.revision, rfl, rfl,
              by simp [hch, hrm, hsk]⟩

theorem uploadStep_meta_frame (env : Env) (rm : List (String × RemoteFile))
    (acc : SyncState × List Effect) (entry : String × String) (p : String)
    (hne : p ≠ entry.1) :
    lookupA (uploadStep env rm acc entry).1.meta p = lookupA acc.1.meta p := by
  rcases uploadStep_cases env rm acc entry with h | ⟨content, pr, _, _, h⟩
  · rw [h]
  · rw [h]
    exact processUpload_meta_frame env acc.1 entry.1 content
      (env.hashFn content) pr p hne

theorem uploadStep_meta_mono (env : Env) (rm : List (String × RemoteFile))
    (acc : SyncState × List Effect) (entry : String × String)
    (a : FileMetadata) (hup : UploadsProgress env)
    (h : lookupA acc.1.meta entry.1 = some a) :
    ∀ b, lookupA (uploadStep env rm acc entry).1.meta entry.1 = some b →
      a.revision ≤ b.revision := by
  intro b hb
  rcases uploadStep_cases env rm acc entry with hs | ⟨content, pr, _, hpr, hs⟩
  · rw [hs, h] at hb
    injection hb with hab
    rw [← hab]
  · have hpra : pr = a.revision := by rw [hpr, h]
    rw [hs] at hb
    simp only [processUpload] at hb
    cases hacc : uploadAccepted (env.upload entry.1 (splitIntoChunks content)
        (env.hashFn content) content.length pr) with
    | some r =>
      simp only [hacc, updateMetadata, lookupA_insertA] at hb
      rw [if_pos trivial] at hb
      have hbb := Option.some.inj hb
      have hlt : pr < r := hup entry.1 (splitIntoChunks content)
        (env.hashFn content) content.length pr r hacc
      rw [hpra] at hlt
      rw [← hbb]
      exact le_of_lt hlt
    | none =>
      by_cases hconf : (env.upload entry.1 (splitIntoChunks content)
          (env.hashFn content) content.length pr).conflict
      · simp [hacc, hconf, deleteMetadata, lookupA_eraseA] at hb
      · simp only [hacc, hconf, Bool.false_eq_true, if_false] at hb
        rw [h] at hb
        injection hb with hab
        rw [← hab]

theorem uploadFold_meta_frame (env : Env) (rm : List (String × RemoteFile))
    (entries : List (String × String)) (acc : SyncState × List Effect)
    (p : String) (hnotin : ∀ e ∈ entries, e.1 ≠ p) :
    lookupA ((entries.foldl (uploadStep env rm) acc)).1.meta p
      = lookupA acc.1.meta p := by
  induction entries generalizing acc with
  | nil => rfl
  | cons e t ih =>
    rw [List.foldl_cons]
    rw [ih _ (fun x hx => hnotin x (List.mem_cons_of_mem _ hx))]
    exact uploadStep_meta_frame env rm acc e p
      (fun hp => hnotin e (List.mem_cons_self _ _) hp.symm)

theorem uploadFold_meta_mono (env : Env) (rm : List (String × RemoteFile))
    (entries : List (String × String)) (acc : SyncState × List Effect)
    (p : String) (a b : FileMetadata) (hup : UploadsProgress env)
    (hnodup : (entries.map Prod.fst).Nodup)
    (h : lookupA acc.1.meta p = some a)
    (hb : lookupA ((entries.foldl (uploadStep env rm) acc)).1.meta p
      = some b) :
    a.revision ≤ b.revision := by
  induction entries generalizing acc a with
  | nil =>
    rw [List.foldl_nil] at hb
    rw [h] at hb
    injection hb with hab
    rw [← hab]
  | cons e t ih =>
    rw [List.foldl_cons] at hb
    by_cases hep : e.1 = p
    · have hnotin : ∀ x ∈ t, x.1 ≠ p := by
        intro x hx hxp
        have hmem : e.1 ∈ t.map Prod.fst := by
          rw [hep, ← hxp]
          exact List.mem_map_of_mem Prod.fst hx
        exact (List.nodup_cons.mp hnodup).1 hmem
      rw [uploadFold_meta_frame env rm t _ p hnotin] at hb
      have hm := uploadStep_meta_mono env rm acc e a hup (by rw [hep]; exact h)
      exact hm b (by rw [hep]; exact hb)
    · have hframe := uploadStep_meta_frame env rm acc e p
        (fun hpe => hep hpe.symm)
      exact ih _ a (List.nodup_cons.mp hnodup).2 (by rw [hframe]; exact h) hb

theorem processDownload_meta_frame (env : Env) (st : SyncState)
    (remote : RemoteFile) (lf : Option String) (p : String)
    (hne : p ≠ remote.path) :
    lookupA (processDownload env st remote lf).1.meta p
      = lookupA st.meta p := by
  unfold processDownload
  by_cases hs : (env.download remote.path remote.revision).success
  · cases hf : (env.download remote.path remote.revision).file with
    | none => simp [hs, hf]
    | some f =>
      cases hc : f.content with
      | none => simp [hs, hf, hc]
      | some c => simp [hs, hf, hc, updateMetadata, lookupA_insertA, hne]
  · simp [hs]

/-- At the record's own path, processDownload either leaves the metadata entry
alone or replaces it with the remote record's digest and revision. -/
theorem processDownload_meta_self (env : Env) (st : SyncState)
    (remote : RemoteFile) (lf : Option String) :
    lookupA (processDownload env st remote lf).1.meta remote.path
        = lookupA st.meta remote.path
    ∨ lookupA (processDownload env st remote lf).1.meta remote.path
        = some { path := remote.path, hash := remote.hash, revision := remote.revision, parentRevision := remote.revision, updatedAt := env.now } := by
  simp only [processDownload]
  by_cases hs : (env.download remote.path remote.revision).success = true
  · cases hf : (env.download remote.path remote.revision).file with
    | none => left; simp [hs, hf]
    | some f =>
      cases hc : f.content with
      | none => left; simp [hs, hf, hc]
      | some c =>
        right
        simp [hs, hf, hc, updateMetadata, lookupA_insertA]
  · left; simp [hs]

theorem downloadStep_meta_mono (env : Env) (lm : List (String × String))
    (acc : SyncState × List Effect) (remote : RemoteFile) (p : String)
    (a : FileMetadata) (h : lookupA acc.1.meta p = some a) :
    ∃ b, lookupA (downloadStep env lm acc remote).1.meta p = some b
      ∧ a.revision ≤ b.revision := by
  simp only [downloadStep]
  by_cases hp : remote.path = p
  · rw [← hp] at h ⊢
    simp only [h]
    by_cases hpull : remote.revision > a.revision
    · rw [if_pos (decide_eq_true hpull)]
      rcases processDownload_meta_self env acc.1 remote
          (lookupA lm remote.path) with hd | hd
      · exact ⟨a, hd.trans h, le_refl _⟩
      · exact ⟨{ path := remote.path, hash := remote.hash, revision := remote.revision, parentRevision := remote.revision, updatedAt := env.now }, hd, le_of_lt hpull⟩
    · rw [if_neg (fun hc => hpull (of_decide_eq_true hc))]
      exact ⟨a, h, le_refl _⟩
  · have hframe := processDownload_meta_frame env acc.1 remote
      (lookupA lm remote.path) p (fun hpp => hp hpp.symm)
    cases hmeta : lookupA acc.1.meta remote.path with
    | none =>
      simp only [hmeta]
      rw [if_pos trivial]
      exact ⟨a, hframe.trans h, le_refl _⟩
    | some m =>
      simp only [hmeta]
      by_cases hpull : remote.revision > m.revision
      · rw [if_pos (decide_eq_true hpull)]
        exact ⟨a, hframe.trans h, le_refl _⟩
      · rw [if_neg (fun hc => hpull (of_decide_eq_true hc))]
        exact ⟨a, h, le_refl _⟩

theorem downloadFold_meta_mono (env : Env) (lm : List (String × String))
    (remotes : List RemoteFile) (acc : SyncState × List Effect) (p : String)
    (a : FileMetadata) (h : lookupA acc.1.meta p = some a) :
    ∃ b, lookupA ((remotes.foldl (downloadStep env lm) acc)).1.meta p = some b
      ∧ a.revision ≤ b.revision := by
  induction remotes generalizing acc a with
  | nil => exact ⟨a, h, le_refl _⟩
  | cons r t ih =>
    rw [List.foldl_cons]
    obtain ⟨b, hb, hab⟩ := downloadStep_meta_mono env lm acc r p a h
    obtain ⟨c, hc, hbc⟩ := ih _ b hb
    exact ⟨c, hc, le_trans hab hbc⟩

/-- Across the body of one pass, a metadata entry present before and after can
only have grown in revision: the download fold is pointwise monotone and the
upload fold is monotone given the optimistic-concurrency assumption and a
duplicate-free local listing. -/
theorem syncBody_meta_mono (env : Env) (st1 : SyncState) (p : String)
    (m m' : FileMetadata) (hup : UploadsProgress env)
    (hnodup : (st1.files.map Prod.fst).Nodup)
    (hm : lookupA st1.meta p = some m)
    (hm' : lookupA (syncBody env st1).state.meta p = some m') :
    m.revision ≤ m'.revision := by
  simp only [syncBody] at hm'
  obtain ⟨b, hb, hab⟩ := downloadFold_meta_mono env st1.files
    env.listRes.files (st1, []) p m hm
  have hbc := uploadFold_meta_mono env (remoteMapOf env.listRes.files)
    st1.files
    ((env.listRes.files.foldl (downloadStep env st1.files) (st1, [])).1, [])
    p b m' hup hnodup hb hm'
  exact le_trans hab hbc

/-- C8: assuming the remote store assigns each accepted write a revision
strictly greater than the supplied parentRevision, and the local listing has
no duplicate paths, the revision stored for any path can only grow across a
sync pass: whenever the path has a SyncMeta entry before and after the pass,
the revision after is at least the revision before. -/
theorem c8_revision_monotone (env : Env) (st : SyncState) (silent : Bool)
    (p : String) (m m' : FileMetadata)
    (hup : UploadsProgress env)
    (hnodup : (st.files.map Prod.fst).Nodup)
    (hm : lookupA st.meta p = some m)
    (hm' : lookupA (performSync env st silent).state.meta p = some m') :
    m.revision ≤ m'.revision := by
  unfold performSync at hm'
  by_cases htok : st.hasToken = false
  · rw [if_pos htok] at hm'
    dsimp only at hm'
    rw [hm] at hm'
    injection hm' with hmm
    rw [← hmm]
  · rw [if_neg htok] at hm'
    by_cases hsync : st.isSyncing = true
    · rw [if_pos hsync] at hm'
      dsimp only at hm'
      rw [hm] at hm'
      injection hm' with hmm
      rw [← hmm]
    · rw [if_neg hsync] at hm'
      by_cases hlist : env.listRes.success = false
      · rw [if_pos hlist] at hm'
        dsimp only at hm'
        rw [hm] at hm'
        injection hm' with hmm
        rw [← hmm]
      · rw [if_neg hlist] at hm'
        exact syncBody_meta_mono env { st with isSyncing := true, status := SyncStatus.syncing } p m m' hup hnodup hm hm'

/-- Environment for the C8 witness: every upload is accepted at revision
`parentRevision + 1`. -/
def envW8 : Env :=
  { listRes := { success := true, files := [] },
    download := fun _ _ => { success := false, file := none },
    upload := fun _ _ _ _ pr =>
      { success := true, revision := some (pr + 1), conflict := false },
    hashFn := fun s => s, now := 12 }

/-- State for the C8 witness: "a.md" synced at revision 3 and edited since. -/
def stW8 : SyncState :=
  { isSyncing := false, hasToken := true,
    meta := [("a.md",
      { path := "a.md", hash := "h0", revision := 3, parentRevision := 3,
        updatedAt := 0 })],
    files := [("a.md", "x")], status := SyncStatus.idle }

/-- The metadata entry of "a.md" before the witness pass. -/
def metaW8 : FileMetadata :=
  { path := "a.md", hash := "h0", revision := 3, parentRevision := 3,
    updatedAt := 0 }

/-- The metadata entry of "a.md" after the witness pass. -/
def metaW8' : FileMetadata :=
  { path := "a.md", hash := "x", revision := 4, parentRevision := 4,
    updatedAt := 12 }

/-- Witness for C8: the pass uploads the edited "a.md" and its stored revision
moves from 3 to 4. -/
theorem c8_revision_monotone_witness : metaW8.revision ≤ metaW8'.revision :=
  c8_revision_monotone envW8 stW8 true "a.md" metaW8 metaW8'
    (fun path chunks hash size pr r hacc => by
      simp [envW8, uploadAccepted] at hacc
      omega)
    (by decide) (by decide) (by decide)

/-! ### C5 -/

/-- The remote record of the C5 counterexample: "note.md" at revision 5. -/
def rfC5 : RemoteFile :=
  { path := "note.md", hash := "RH", size := 3, revision := 5,
    isDeleted := false }

/-- Environment of the C5 counterexample: the listing shows rfC5, the download
of it fails (so no SyncMeta entry gets created in the download phase), uploads
fail too. -/
def envC5 : Env :=
  { listRes := { success := true, files := [rfC5] },
    download := fun _ _ => { success := false, file := none },
    upload := fun _ _ _ _ _ =>
      { success := false, revision := none, conflict := false },
    hashFn := fun s => s, now := 3 }

/-- State of the C5 counterexample: "note.md" exists locally with no SyncMeta
entry. -/
def stC5 : SyncState :=
  { isSyncing := false, hasToken := true, meta := [],
    files := [("note.md", "hello")],
    status := SyncStatus.idle }

/-- C5 counterexample: "note.md" has no SyncMeta entry and a remote record
exists for it, yet the pass issues an upload for "note.md" (with
parentRevision 0) instead of skipping it — the claim's meta-absent case does
not hold on the code, whose skip requires a present SyncMeta entry. -/
theorem c5_counterexample_upload_issued_despite_remote :
    lookupA stC5.meta "note.md" = none
    ∧ lookupA (remoteMapOf envC5.listRes.files) "note.md" = some rfC5
    ∧ (performSync envC5 stC5 true).effects
        = [Effect.remoteDownloadCall "note.md" 5,
           Effect.remoteUpload "note.md" 0 false] := by
  decide

/-- C5 amended: the upload phase skips a changed path only when a SyncMeta
entry exists, a remote record exists and the remote revision is strictly
greater than the entry's revision; when the SyncMeta entry is absent, the path
is uploaded with parentRevision 0 even if a remote record exists. -/
theorem c5_amended_upload_skip (env : Env) (rm : List (String × RemoteFile))
    (acc : SyncState × List Effect) (path x content : String) :
    (∀ (m : FileMetadata) (r : RemoteFile),
        lookupA acc.1.files path = some content →
        lookupA acc.1.meta path = some m →
        m.hash ≠ env.hashFn content →
        lookupA rm path = some r →
        m.revision < r.revision →
        uploadStep env rm acc (path, x) = acc)
    ∧ (lookupA acc.1.files path = some content →
        lookupA acc.1.meta path = none →
        uploadStep env rm acc (path, x)
          = ((processUpload env acc.1 path content (env.hashFn content) 0).1,
             acc.2 ++ (processUpload env acc.1 path content
               (env.hashFn content) 0).2)) := by
  constructor
  · intro m r hread hmeta hch hrm hlt
    simp only [uploadStep]
    simp [hread, hmeta, hch, hrm, hlt]
  · intro hread hmeta
    simp only [uploadStep]
    cases hrm : lookupA rm path with
    | none => simp [hread, hmeta, hrm]
    | some r => simp [hread, hmeta, hrm]

/-- Environment for the C5 amended witness. -/
def envW5 : Env :=
  { listRes := { success := true, files := [] },
    download := fun _ _ => { success := false, file := none },
    upload := fun _ _ _ _ _ =>
      { success := false, revision := none, conflict := false },
    hashFn := fun s => s, now := 0 }

/-- Remote map for the C5 amended witness: "p.md" is at revision 2. -/
def rmW5 : List (String × RemoteFile) :=
  [("p.md",
    { path := "p.md", hash := "rh", size := 1, revision := 2,
      isDeleted := false })]

/-- Accumulator for the C5 amended witness skip case: "p.md" synced at
revision 1 with digest "A", edited to "B". -/
def accW5 : SyncState × List Effect :=
  ({ isSyncing := true, hasToken := true,
     meta := [("p.md",
       { path := "p.md", hash := "A", revision := 1, parentRevision := 1,
         updatedAt := 0 })],
     files := [("p.md", "B")], status := SyncStatus.syncing }, [])

/-- Accumulator for the C5 amended witness meta-absent case. -/
def accW5none : SyncState × List Effect :=
  ({ isSyncing := true, hasToken := true, meta := [],
     files := [("q.md", "C")], status := SyncStatus.syncing }, [])

/-- Witness for the C5 amended claim: the skip fires for "p.md" (entry at
revision 1, remote at revision 2), and the meta-absent "q.md" goes to
processUpload with parentRevision 0. -/
theorem c5_amended_upload_skip_witness :
    uploadStep envW5 rmW5 accW5 ("p.md", "B") = accW5
    ∧ uploadStep envW5 rmW5 accW5none ("q.md", "C")
        = ((processUpload envW5 accW5none.1 "q.md" "C" "C" 0).1,
           accW5none.2 ++ (processUpload envW5 accW5none.1 "q.md" "C"
             "C" 0).2) :=
  ⟨(c5_amended_upload_skip envW5 rmW5 accW5 "p.md" "B" "B").1
      { path := "p.md", hash := "A", revision := 1, parentRevision := 1, updatedAt := 0 }
      { path := "p.md", hash := "rh", size := 1, revision := 2, isDeleted := false }
      rfl rfl (by decide) rfl (by decide),
   (c5_amended_upload_skip envW5 rmW5 accW5none "q.md" "C" "C").2 rfl rfl⟩

/-! ### C1 -/

/-- The remote record of the C1 scenario: "note.md" at revision 2 whose
content is "REMOTE". -/
def rfC1 : RemoteFile :=
  { path := "note.md", hash := "REMOTE", size := 6, revision := 2,
    isDeleted := false }

/-- Environment of the C1 scenario: the download of rfC1 succeeds. -/
def envC1 : Env :=
  { listRes := { success := true, files := [rfC1] },
    download := fun _ _ =>
      { success := true, file := some { content := some "REMOTE" } },
    upload := fun _ _ _ _ _ =>
      { success := false, revision := none, conflict := false },
    hashFn := fun s => s, now := 99 }

/-- State of the C1 scenario: "note.md" was last synced at revision 1 with
digest "A" and has since been edited locally to "LOCAL EDIT" (current digest
differs from "A"). -/
def stC1 : SyncState :=
  { isSyncing := false, hasToken := true,
    meta := [("note.md",
      { path := "note.md", hash := "A", revision := 1, parentRevision := 1,
        updatedAt := 0 })],
    files := [("note.md", "LOCAL EDIT")],
    status := SyncStatus.idle }

/-- The state the C1 pass actually produces: the local edit is gone. -/
def stC1' : SyncState :=
  { isSyncing := false, hasToken := true,
    meta := [("note.md",
      { path := "note.md", hash := "REMOTE", revision := 2,
        parentRevision := 2, updatedAt := 99 })],
    files := [("note.md", "REMOTE")],
    status := SyncStatus.idle }

/-- C1 evaluated at the failing input: with a true edit conflict (remote
revision 2 is newer than the stored revision 1 and the current local digest
differs from the stored digest "A"), the pass simply overwrites the local file
with the downloaded remote content and stores the remote digest — no merge, no
conflict markers, and the stored digest IS updated, so the concurrent local
edit "LOCAL EDIT" is discarded without a trace. -/
theorem c1_download_overwrites_local_edit :
    performSync envC1 stC1 true
      = { state := stC1', aborted := false,
          effects := [Effect.remoteDownloadCall "note.md" 2] }
    ∧ lookupA (performSync envC1 stC1 true).state.files "note.md"
        = some "REMOTE" := by
  decide

/-! ### C2 -/

/-- The remote record of the C2 scenario: a deleted "del.md" at revision 2. -/
def rfC2 : RemoteFile :=
  { path := "del.md", hash := "H2", size := 1, revision := 2,
    isDeleted := true }

/-- Environment of the C2 scenario: the content download of the deleted record
fails. -/
def envC2 : Env :=
  { listRes := { success := true, files := [rfC2] },
    download := fun _ _ => { success := false, file := none },
    upload := fun _ _ _ _ _ =>
      { success := false, revision := none, conflict := false },
    hashFn := fun s => s, now := 50 }

/-- State of the C2 scenario: "del.md" synced at revision 1, digest "A",
present locally with content "OLD". -/
def stC2 : SyncState :=
  { isSyncing := false, hasToken := true,
    meta := [("del.md",
      { path := "del.md", hash := "A", revision := 1, parentRevision := 1,
        updatedAt := 0 })],
    files := [("del.md", "OLD")],
    status := SyncStatus.idle }

/-- C2 evaluated at the failing input: the download phase never inspects
`isDeleted` — it just tries to download the record's content.  Here that
download fails, so the pass leaves the local file in place and the SyncMeta
entry at revision 1 with digest "A": no local deletion and no tombstone entry
(digest "", revision 2) is ever written. -/
theorem c2_remote_deletion_not_tombstoned :
    performSync envC2 stC2 true
      = { state := stC2, aborted := false,
          effects := [Effect.remoteDownloadCall "del.md" 2] }
    ∧ lookupA (performSync envC2 stC2 true).state.files "del.md" = some "OLD"
    ∧ lookupA (performSync envC2 stC2 true).state.meta "del.md"
        = some { path := "del.md", hash := "A", revision := 1, parentRevision := 1, updatedAt := 0 } := by
  decide

/-! ### C3 -/

/-- Environment of the C3 scenario: a successful, empty remote listing. -/
def envC3 : Env :=
  { listRes := { success := true, files := [] },
    download := fun _ _ => { success := false, file := none },
    upload := fun _ _ _ _ _ =>
      { success := false, revision := none, conflict := false },
    hashFn := fun s => s, now := 7 }

/-- State of the C3 scenario: "gone.md" has a SyncMeta entry with non-empty
digest "G" at revision 4, is absent from the local file tree, and has no
remote record (so certainly no newer remote revision). -/
def stC3 : SyncState :=
  { isSyncing := false, hasToken := true,
    meta := [("gone.md",
      { path := "gone.md", hash := "G", revision := 4, parentRevision := 4,
        updatedAt := 0 })],
    files := [],
    status := SyncStatus.idle }

/-- C3 evaluated at the failing input: the pass has no local-deletion phase at
all — NetworkClient.deleteFile is never invoked by performSync (the Effect
constructor for a remote delete is never produced by the semantics) — so the
locally deleted "gone.md" triggers no remote delete and no tombstone: the pass
performs no remote call whatsoever and the entry stays at revision 4 with
digest "G". -/
theorem c3_local_deletion_not_propagated :
    (performSync envC3 stC3 true).effects = []
    ∧ lookupA (performSync envC3 stC3 true).state.meta "gone.md"
        = some { path := "gone.md", hash := "G", revision := 4, parentRevision := 4, updatedAt := 0 }
    ∧ (performSync envC3 stC3 true).aborted = false := by
  decide

end HonosSync
